import Mathlib

/-!
Verification of the RGBDS assembler/linker core against its specification.

The definitions below are shallow embeddings of the C/C++ sources:
the linker output stage (`out_AddSection`, `out_OverlappingSection`,
`checkOverlaySize`, `compareSymbols`, `printSymName`), the assembler
file stack (`pushcontext`, `fstk_RunRept`, `fstk_FindFile`), the
conditional-assembly directives, the `ld a, [n]` emission rules, and
the `STRSUB` string builtin.  Machine integers are modelled as `Nat`
or `Int` with explicit wrapping where the source relies on it, and
fatal errors (`errx`, `fatalerror`) as `Except`.
-/

/-- The section types of the linker, in the order of the C enum
(the order is pinned down by the `maxNbBanks` table in the source). -/
inductive SectionType where
  | wram0
  | vram
  | romx
  | rom0
  | hram
  | wramx
  | sram
  | oam
deriving DecidableEq, Repr

/-- Modelled from the spec: the per-type bank numbering table
(`sectionTypeInfo[...].firstBank`); `linkdefs.hpp` is not among the
sources, §4.7/§4.8 and the glossary describe bank numbering starting
at `firstBank` (1 for ROMX and WRAMX, 0 otherwise). -/
def firstBank : SectionType → Nat
  | .wram0 => 0
  | .vram => 0
  | .romx => 1
  | .rom0 => 0
  | .hram => 0
  | .wramx => 1
  | .sram => 0
  | .oam => 0

/-- The `maxNbBanks` table of `out_AddSection` (UINT32_MAX for ROMX and SRAM). -/
def maxNbBanks : SectionType → Nat
  | .wram0 => 1
  | .vram => 2
  | .romx => 4294967295
  | .rom0 => 1
  | .hram => 1
  | .wramx => 7
  | .sram => 4294967295
  | .oam => 1

/-- The constant `BANK_SIZE` from the linker output stage. -/
def BANK_SIZE : Nat := 0x4000

/-- The function `checkOverlaySize`: sanity checks on the overlay file.  `none`
models a run without an overlay file; for a (seekable) overlay file the
argument carries its size in bytes.  `errx` is modelled as `Except.error`.
Returns the number of ROM banks in the overlay file. -/
def checkOverlaySize (overlay : Option Nat) (is32kMode : Bool) : Except String Nat :=
  match overlay with
  | none => .ok 0
  | some overlaySize =>
    if overlaySize % BANK_SIZE ≠ 0 then
      .error "Overlay file must have a size multiple of 0x4000"
    else
      let nbOverlayBanks := overlaySize / BANK_SIZE
      if is32kMode ∧ nbOverlayBanks ≠ 2 then
        .error "Overlay must be exactly 0x8000 bytes large"
      else if nbOverlayBanks < 2 then
        .error "Overlay must be at least 0x8000 bytes large"
      else
        .ok nbOverlayBanks

/-- C1: given an overlay file, the run fails when the overlay size is not
a multiple of 0x4000 or below 0x8000 (2 banks); in 32KiB mode it fails
unless the size is exactly 0x8000; otherwise the check succeeds and
returns the overlay's bank count. -/
theorem checkOverlaySize_ok_iff (size : Nat) (is32kMode : Bool) :
    (size % 0x4000 ≠ 0 ∨ size < 0x8000 →
      ∃ msg, checkOverlaySize (some size) is32kMode = .error msg)
    ∧ (is32kMode = true → size ≠ 0x8000 →
      ∃ msg, checkOverlaySize (some size) is32kMode = .error msg)
    ∧ (size % 0x4000 = 0 → 0x8000 ≤ size → (is32kMode = true → size = 0x8000) →
      checkOverlaySize (some size) is32kMode = .ok (size / 0x4000)) := by
  refine ⟨?_, ?_, ?_⟩
  · intro h
    rcases h with h | h
    · exact ⟨"Overlay file must have a size multiple of 0x4000",
        by simp [checkOverlaySize, BANK_SIZE, h]⟩
    · by_cases hm : size % 0x4000 = 0
      · have hdiv : size / 0x4000 < 2 := by omega
        by_cases h32 : is32kMode = true ∧ size / 0x4000 ≠ 2
        · exact ⟨"Overlay must be exactly 0x8000 bytes large",
            by simp [checkOverlaySize, BANK_SIZE, hm, h32, hdiv]⟩
        · refine ⟨"Overlay must be at least 0x8000 bytes large", ?_⟩
          simp only [checkOverlaySize, BANK_SIZE]
          rw [if_neg (by simpa using hm), if_neg (by simpa using h32), if_pos hdiv]
      · exact ⟨"Overlay file must have a size multiple of 0x4000",
          by simp [checkOverlaySize, BANK_SIZE, hm]⟩
  · intro h32 hne
    by_cases hm : size % 0x4000 = 0
    · have hdiv : size / 0x4000 ≠ 2 := by omega
      exact ⟨"Overlay must be exactly 0x8000 bytes large",
        by simp [checkOverlaySize, BANK_SIZE, hm, h32, hdiv]⟩
    · exact ⟨"Overlay file must have a size multiple of 0x4000",
        by simp [checkOverlaySize, BANK_SIZE, hm]⟩
  · intro hm hge h32
    have hdiv2 : 2 ≤ size / 0x4000 := by omega
    have hcase : ¬(is32kMode = true ∧ size / 0x4000 ≠ 2) := by
      rintro ⟨h1, h2⟩
      exact h2 (by rw [h32 h1])
    simp only [checkOverlaySize, BANK_SIZE]
    rw [if_neg (by simpa using hm), if_neg (by simpa using hcase), if_neg (by omega)]

/-- Witness for C1 at concrete inputs: a 0x8000-byte overlay in 32KiB
mode passes and reports 2 banks, and a 0x4000-byte overlay is rejected. -/
theorem checkOverlaySize_ok_iff_witness :
    checkOverlaySize (some 0x8000) true = .ok 2
    ∧ ∃ msg, checkOverlaySize (some 0x4000) false = .error msg :=
  ⟨(checkOverlaySize_ok_iff 0x8000 true).2.2 (by decide) (by decide) (fun _ => rfl),
   (checkOverlaySize_ok_iff 0x4000 false).1 (Or.inr (by decide))⟩

/-- A linker section (`struct Section`), restricted to the fields the
section-registration functions read: name, type, bank, org and size
(the symbol list and the `nextu` link play no role in `out_AddSection`
and `out_OverlappingSection`). -/
structure LinkSection where
  name : String
  type : SectionType
  bank : Nat
  org : Nat
  size : Nat
deriving DecidableEq, Repr

/-- The C `struct SortedSections`: the per-bank deques of sections with data
and of zero-length sections. -/
structure SortedSections where
  sections : List LinkSection
  zeroLenSections : List LinkSection
deriving DecidableEq, Repr

instance : Inhabited SortedSections := ⟨⟨[], []⟩⟩

/-- The static `sections` array of the output stage, indexed by type
then by bank (banks beyond the list are not yet created). -/
def OutState := SectionType → List SortedSections

/-- The insertion loop of `out_AddSection`: advance while the existing
section's `org` is below the new one, i.e. insert before the first
section whose `org` is not smaller. -/
def insertByOrg (s : LinkSection) : List LinkSection → List LinkSection
  | [] => [s]
  | x :: xs => if x.org < s.org then x :: insertByOrg s xs else s :: x :: xs

/-- Append empty `SortedSections` entries until the list has at least
`n` banks (the `emplace_back` loop of `out_AddSection`). -/
def extendBanks (l : List SortedSections) (n : Nat) : List SortedSections :=
  l ++ List.replicate (n - l.length) default

/-- The function `out_AddSection`: register a section for output, failing on an
invalid bank range, growing the per-type bank list on demand and
inserting the section into the bank's `sections` (nonzero size) or
`zeroLenSections` (zero size) deque, ordered by `org`. -/
def out_AddSection (st : OutState) (s : LinkSection) : Except String OutState :=
  let targetBank := s.bank - firstBank s.type
  let minNbBanks := targetBank + 1
  if minNbBanks > maxNbBanks s.type then
    .error "invalid bank range"
  else
    let banks := extendBanks (st s.type) minNbBanks
    let cur := banks.getD targetBank default
    let cur' :=
      if s.size ≠ 0 then { cur with sections := insertByOrg s cur.sections }
      else { cur with zeroLenSections := insertByOrg s cur.zeroLenSections }
    .ok (fun t => if t = s.type then banks.set targetBank cur' else st t)

/-- The function `out_OverlappingSection`: the first already-registered section of
the same type and bank (among those with data) whose `[org, org+size)`
interval intersects the given section's. -/
def out_OverlappingSection (st : OutState) (s : LinkSection) : Option LinkSection :=
  let bank := s.bank - firstBank s.type
  ((st s.type).getD bank default).sections.find?
    (fun p => p.org < s.org + s.size && s.org < p.org + p.size)

/-- Modelled from the spec: the placement engine (`assign`, not among
the sources) refuses to place a section over an already-placed one
(§4.7 step 2: "fail if out of range or overlaps a previously placed
section"), so a section is only handed to `out_AddSection` when
`out_OverlappingSection` finds no conflicting neighbor. -/
def out_AddSectionChecked (st : OutState) (s : LinkSection) : Except String OutState :=
  match out_OverlappingSection st s with
  | some p => .error ("section overlaps \"" ++ p.name ++ "\"")
  | none => out_AddSection st s

/-- The initial, empty output state. -/
def outInit : OutState := fun _ => []

/-- Run a whole sequence of checked `out_AddSection` calls. -/
def out_AddSections (l : List LinkSection) : Except String OutState :=
  l.foldlM out_AddSectionChecked outInit

/-- Two sections occupy disjoint `[org, org+size)` intervals. -/
def sectDisjoint (a b : LinkSection) : Prop :=
  a.org + a.size ≤ b.org ∨ b.org + b.size ≤ a.org

theorem mem_insertByOrg {s y : LinkSection} : ∀ {l : List LinkSection},
    y ∈ insertByOrg s l ↔ y = s ∨ y ∈ l := by
  intro l
  induction l with
  | nil => simp [insertByOrg]
  | cons x xs ih =>
    by_cases h : x.org < s.org
    · simp [insertByOrg, h, ih]
      tauto
    · simp [insertByOrg, h]

theorem insertByOrg_sorted {s : LinkSection} : ∀ {l : List LinkSection},
    l.Pairwise (fun a c => a.org ≤ c.org) →
    (insertByOrg s l).Pairwise (fun a c => a.org ≤ c.org) := by
  intro l
  induction l with
  | nil => simp [insertByOrg]
  | cons x xs ih =>
    intro hp
    rw [List.pairwise_cons] at hp
    by_cases h : x.org < s.org
    · rw [insertByOrg, if_pos h, List.pairwise_cons]
      refine ⟨?_, ih hp.2⟩
      intro y hy
      rcases mem_insertByOrg.1 hy with rfl | hy
      · omega
      · exact hp.1 y hy
    · rw [insertByOrg, if_neg h, List.pairwise_cons]
      refine ⟨?_, List.pairwise_cons.2 hp⟩
      intro y hy
      rcases List.mem_cons.1 hy with rfl | hy
      · omega
      · have := hp.1 y hy
        omega

theorem sectDisjoint_symm {a b : LinkSection} (h : sectDisjoint a b) : sectDisjoint b a := by
  unfold sectDisjoint at *
  tauto

theorem insertByOrg_disjoint {s : LinkSection} : ∀ {l : List LinkSection},
    l.Pairwise sectDisjoint → (∀ p ∈ l, sectDisjoint s p) →
    (insertByOrg s l).Pairwise sectDisjoint := by
  intro l
  induction l with
  | nil => simp [insertByOrg]
  | cons x xs ih =>
    intro hp hall
    rw [List.pairwise_cons] at hp
    by_cases h : x.org < s.org
    · rw [insertByOrg, if_pos h, List.pairwise_cons]
      refine ⟨?_, ih hp.2 (fun p hpmem => hall p (List.mem_cons_of_mem _ hpmem))⟩
      intro y hy
      rcases mem_insertByOrg.1 hy with rfl | hy
      · exact sectDisjoint_symm (hall x (List.mem_cons_self _ _))
      · exact hp.1 y hy
    · rw [insertByOrg, if_neg h, List.pairwise_cons]
      refine ⟨?_, List.pairwise_cons.2 hp⟩
      intro y hy
      exact hall y hy

theorem getD_append_replicate_default (l : List SortedSections) (b n : Nat) :
    (l ++ List.replicate n default).getD b default = l.getD b default := by
  simp only [List.getD_eq_getElem?_getD, List.getElem?_append]
  rcases lt_or_ge b l.length with h | h
  · simp [h]
  · simp only [if_neg (Nat.not_lt.2 h), List.getElem?_replicate]
    rw [List.getElem?_eq_none h]
    by_cases h2 : b - l.length < n <;> simp [h2]

theorem extendBanks_getD (l : List SortedSections) (n b : Nat) :
    (extendBanks l n).getD b default = l.getD b default :=
  getD_append_replicate_default l b (n - l.length)

theorem extendBanks_getElem?D (l : List SortedSections) (n b : Nat) :
    ((extendBanks l n)[b]?).getD default = (l[b]?).getD default := by
  simpa [List.getD_eq_getElem?_getD] using extendBanks_getD l n b

theorem extendBanks_getElem (l : List SortedSections) (n b : Nat)
    (h : b < (extendBanks l n).length) :
    (extendBanks l n)[b] = (l[b]?).getD default := by
  have h2 := extendBanks_getElem?D l n b
  rw [List.getElem?_eq_getElem h] at h2
  simpa using h2

/-- What one `out_AddSection` call does to each per-type-and-bank slot:
the targeted slot gains the new section in the appropriate deque, every
other slot is untouched. -/
theorem out_AddSection_getD {st st' : OutState} {s : LinkSection}
    (h : out_AddSection st s = .ok st') (t : SectionType) (b : Nat) :
    (st' t).getD b default =
      if t = s.type ∧ b = s.bank - firstBank s.type then
        (if s.size ≠ 0 then
          { sections :=
              insertByOrg s ((st s.type).getD (s.bank - firstBank s.type) default).sections,
            zeroLenSections :=
              ((st s.type).getD (s.bank - firstBank s.type) default).zeroLenSections }
         else
          { sections := ((st s.type).getD (s.bank - firstBank s.type) default).sections,
            zeroLenSections :=
              insertByOrg s
                ((st s.type).getD (s.bank - firstBank s.type) default).zeroLenSections })
      else (st t).getD b default := by
  unfold out_AddSection at h
  by_cases hrange : s.bank - firstBank s.type + 1 > maxNbBanks s.type
  · rw [if_pos hrange] at h
    exact absurd h (by simp)
  rw [if_neg hrange] at h
  simp only [Except.ok.injEq] at h
  subst h
  have hlen : s.bank - firstBank s.type <
      (extendBanks (st s.type) (s.bank - firstBank s.type + 1)).length := by
    unfold extendBanks
    rw [List.length_append, List.length_replicate]
    omega
  by_cases ht : t = s.type
  · subst ht
    by_cases hb : b = s.bank - firstBank s.type
    · subst hb
      simp [List.getD_eq_getElem?_getD, List.getElem?_set_self',
        List.getElem?_eq_getElem hlen, extendBanks_getElem _ _ _ hlen, extendBanks_getElem?D]
    · simp [hb, List.getD_eq_getElem?_getD,
        List.getElem?_set_ne (fun hc => hb hc.symm), extendBanks_getElem?D]
  · simp [ht]

/-- The running invariant of the output stage's section registry:
in every per-type-and-bank entry, the `sections` deque holds only
nonzero-size sections, pairwise disjoint, sorted by increasing `org`,
and the `zeroLenSections` deque is sorted by increasing `org`. -/
def OutInv (st : OutState) : Prop :=
  ∀ (t : SectionType) (b : Nat),
    (∀ s ∈ ((st t).getD b default).sections, s.size ≠ 0)
    ∧ ((st t).getD b default).sections.Pairwise sectDisjoint
    ∧ ((st t).getD b default).sections.Pairwise (fun a c => a.org ≤ c.org)
    ∧ ((st t).getD b default).zeroLenSections.Pairwise (fun a c => a.org ≤ c.org)

theorem outInv_init : OutInv outInit := by
  intro t b
  have h : (outInit t).getD b default = ⟨[], []⟩ := rfl
  rw [h]
  simp

theorem outInv_preserved {st st' : OutState} {s : LinkSection}
    (hinv : OutInv st) (h : out_AddSectionChecked st s = .ok st') : OutInv st' := by
  unfold out_AddSectionChecked at h
  cases hover : out_OverlappingSection st s with
  | some p =>
    rw [hover] at h
    exact absurd h (by simp)
  | none =>
  rw [hover] at h
  have hdisj : ∀ p ∈ ((st s.type).getD (s.bank - firstBank s.type) default).sections,
      sectDisjoint s p := by
    intro p hp
    have hfind := (List.find?_eq_none).1 hover p hp
    simp only [Bool.and_eq_true, decide_eq_true_eq, not_and, Nat.not_lt] at hfind
    unfold sectDisjoint
    by_cases hlt : p.org < s.org + s.size
    · exact Or.inr (hfind hlt)
    · exact Or.inl (Nat.le_of_not_lt hlt)
  intro t b
  rw [out_AddSection_getD h t b]
  by_cases hc : t = s.type ∧ b = s.bank - firstBank s.type
  · rw [if_pos hc]
    have hcur := hinv s.type (s.bank - firstBank s.type)
    by_cases hsz : s.size ≠ 0
    · rw [if_pos hsz]
      refine ⟨?_, insertByOrg_disjoint hcur.2.1 hdisj, insertByOrg_sorted hcur.2.2.1,
        hcur.2.2.2⟩
      intro x hx
      rcases mem_insertByOrg.1 hx with rfl | hx
      · exact hsz
      · exact hcur.1 x hx
    · rw [if_neg hsz]
      exact ⟨hcur.1, hcur.2.1, hcur.2.2.1, insertByOrg_sorted hcur.2.2.2⟩
  · rw [if_neg hc]
    exact hinv t b

/-- C8: after any sequence of section registrations accepted by the
output stage (each checked against `out_OverlappingSection` before
being added, as the placement engine does), every per-type-and-bank
`sections` deque holds only nonzero-size sections, any two of them are
disjoint, and both per-bank deques are sorted by increasing `org`;
moreover `out_OverlappingSection` can only ever report a nonzero-size
conflicting neighbor. -/
theorem out_AddSections_no_overlap (l : List LinkSection) (st : OutState)
    (h : out_AddSections l = .ok st) :
    (∀ (t : SectionType) (b : Nat),
      (∀ s ∈ ((st t).getD b default).sections, s.size ≠ 0)
      ∧ ((st t).getD b default).sections.Pairwise sectDisjoint
      ∧ ((st t).getD b default).sections.Pairwise (fun a c => a.org ≤ c.org)
      ∧ ((st t).getD b default).zeroLenSections.Pairwise (fun a c => a.org ≤ c.org))
    ∧ (∀ (s0 p : LinkSection), out_OverlappingSection st s0 = some p → p.size ≠ 0) := by
  have main : ∀ (l : List LinkSection) (st0 stf : OutState), OutInv st0 →
      l.foldlM out_AddSectionChecked st0 = .ok stf → OutInv stf := by
    intro l
    induction l with
    | nil =>
      intro st0 stf h0 hfold
      simp only [List.foldlM_nil] at hfold
      cases hfold
      exact h0
    | cons x xs ih =>
      intro st0 stf h0 hfold
      rw [List.foldlM_cons] at hfold
      cases hstep : out_AddSectionChecked st0 x with
      | error e =>
        rw [hstep] at hfold
        exact absurd hfold (by simp [Bind.bind, Except.bind])
      | ok st1 =>
        rw [hstep] at hfold
        simp only [Bind.bind, Except.bind] at hfold
        exact ih st1 stf (outInv_preserved h0 hstep) hfold
  have hinv : OutInv st := main l outInit st outInv_init h
  refine ⟨hinv, ?_⟩
  intro s0 p hfind
  unfold out_OverlappingSection at hfind
  exact (hinv s0.type (s0.bank - firstBank s0.type)).1 p (List.mem_of_find?_eq_some hfind)

/-- Witness for C8: a concrete accepted sequence (two disjoint ROM0
sections and one zero-size section) yields a state whose ROM0 bank-0
deque is pairwise disjoint and free of zero-size sections. -/
theorem out_AddSections_no_overlap_witness :
    ∃ st, out_AddSections
        [⟨"A", .rom0, 0, 0, 2⟩, ⟨"B", .rom0, 0, 4, 2⟩, ⟨"C", .rom0, 0, 3, 0⟩] = .ok st
      ∧ ((st .rom0).getD 0 default).sections.Pairwise sectDisjoint
      ∧ (∀ s ∈ ((st .rom0).getD 0 default).sections, s.size ≠ 0) := by
  have h : ∃ st, out_AddSections
      [⟨"A", .rom0, 0, 0, 2⟩, ⟨"B", .rom0, 0, 4, 2⟩, ⟨"C", .rom0, 0, 3, 0⟩] = .ok st :=
    ⟨_, rfl⟩
  obtain ⟨st, h⟩ := h
  exact ⟨st, h, ((out_AddSections_no_overlap _ st h).1 .rom0 0).2.1,
    ((out_AddSections_no_overlap _ st h).1 .rom0 0).1⟩

/-- The C `struct SortedSymbol`: the symbol's name together with the address
precomputed by `writeSymBank` (`sym->offset + sect->org`, a `uint16_t`). -/
structure SortedSymbol where
  name : List Char
  addr : Nat
deriving DecidableEq, Repr

/-- Indexing a const C++ string: the character at the
given index, or NUL at (or past) the end. -/
def charAtD (l : List Char) (i : Nat) : Char := l.getD i (Char.ofNat 0)

/-- The comparator `compareSymbols`: order by address, then by parentage — a parent
label before its own child locals, locals before unrelated globals;
symbols at the same address with the same locality compare equal. -/
def compareSymbols (sym1 sym2 : SortedSymbol) : Int :=
  if sym1.addr ≠ sym2.addr then
    if sym1.addr < sym2.addr then -1 else 1
  else
    let sym1Local := sym1.name.contains '.'
    let sym2Local := sym2.name.contains '.'
    if sym1Local ≠ sym2Local then
      if sym1.name.isPrefixOf sym2.name ∧ charAtD sym2.name sym1.name.length = '.' then -1
      else if sym2.name.isPrefixOf sym1.name ∧ charAtD sym1.name sym2.name.length = '.' then 1
      else if sym1Local then -1 else 1
    else 0

/-- The call `std::stable_sort(RANGE(symList), compareSymbols)`,
modelled as a stable insertion sort.  `std::stable_sort` expects a
boolean strictly-precedes predicate, but the program passes the
three-way `int` comparator, which C++ contextually converts to `bool`:
the predicate actually consulted is `compareSymbols(a, b) != 0`.  The
stable insertion sort accordingly inserts a symbol before the first
later symbol `b` that this predicate does not order strictly before it
(`compareSymbols b a ≠ 0` failing, i.e. `compareSymbols b a = 0`), so
only genuine ties of the bool predicate keep input order. -/
def stableSortSymbols (l : List SortedSymbol) : List SortedSymbol :=
  List.insertionSort (fun a b => compareSymbols b a = 0) l

/-- C3 counterexample: already for two symbols at distinct addresses
the bool-converted comparator orders each strictly before the other,
so the sort does not sort: `[A@0, B@1]` sorts to `[B@1, A@0]` while
its reverse sorts to `[A@0, B@1]` — the predicate is not a total
order, and reversing the input changes the stable-sort output. -/
theorem compareSymbols_not_total_order :
    stableSortSymbols (List.reverse [⟨['A'], 0⟩, ⟨['B'], 1⟩]) ≠
      stableSortSymbols [⟨['A'], 0⟩, ⟨['B'], 1⟩] := by decide

theorem compareSymbols_ne_zero_of_addr_ne {a b : SortedSymbol} (h : a.addr ≠ b.addr) :
    compareSymbols a b ≠ 0 := by
  unfold compareSymbols
  rw [if_pos h]
  by_cases hlt : a.addr < b.addr <;> simp [hlt]

theorem orderedInsert_of_all_neg {α : Type} (r : α → α → Prop) [DecidableRel r] (a : α) :
    ∀ (l : List α), (∀ b ∈ l, ¬ r a b) → l.orderedInsert r a = l ++ [a] := by
  intro l
  induction l with
  | nil => intro _; rfl
  | cons x xs ih =>
    intro h
    rw [List.orderedInsert, if_neg (h x (List.mem_cons_self _ _)),
      ih (fun b hb => h b (List.mem_cons_of_mem _ hb)), List.cons_append]

/-- An insertion sort whose predicate rejects every (ordered) pair of
the list reverses the list: each element sinks past all the elements
inserted before it. -/
theorem insertionSort_eq_reverse {α : Type} (r : α → α → Prop) [DecidableRel r] :
    ∀ (l : List α), l.Pairwise (fun a b => ¬ r a b) → l.insertionSort r = l.reverse := by
  intro l
  induction l with
  | nil => intro _; rfl
  | cons x xs ih =>
    intro h
    rw [List.pairwise_cons] at h
    rw [List.insertionSort, ih h.2,
      orderedInsert_of_all_neg r x _ (fun b hb => h.1 b (List.mem_reverse.1 hb)),
      List.reverse_cons]

/-- C3 amended: the comparator, as converted to `bool` for
`std::stable_sort`, is not a total order — it orders any two
address-distinct symbols each strictly before the other — and the sort
does not sort: on a list of symbols at pairwise distinct addresses the
stable sort returns the reversed list, and sorting the reversed list
returns the original list, so the two outputs differ whenever the list
differs from its own reverse. -/
theorem stableSortSymbols_reverse (l : List SortedSymbol)
    (h : l.Pairwise (fun a b => a.addr ≠ b.addr)) :
    stableSortSymbols l = l.reverse ∧ stableSortSymbols l.reverse = l := by
  have hpw : l.Pairwise (fun a b => ¬ compareSymbols b a = 0) :=
    h.imp (fun hne => compareSymbols_ne_zero_of_addr_ne (Ne.symm hne))
  have hpw2 : l.reverse.Pairwise (fun a b => ¬ compareSymbols b a = 0) :=
    List.pairwise_reverse.2 (h.imp (fun hne => compareSymbols_ne_zero_of_addr_ne hne))
  constructor
  · unfold stableSortSymbols
    exact insertionSort_eq_reverse _ l hpw
  · unfold stableSortSymbols
    rw [insertionSort_eq_reverse _ l.reverse hpw2, List.reverse_reverse]

/-- Witness for C3 amended: stably sorting a concrete two-symbol list
with distinct addresses returns its reverse, not the address order. -/
theorem stableSortSymbols_reverse_witness :
    stableSortSymbols [⟨['B'], 1⟩, ⟨['A'], 0⟩] =
      List.reverse [⟨['B'], 1⟩, ⟨['A'], 0⟩] :=
  (stableSortSymbols_reverse [⟨['B'], 1⟩, ⟨['A'], 0⟩] (by decide)).1

/-- Modelled from the spec: the byte-level UTF-8 DFA decoder
(`extern/utf8decoder.hpp` is not among the sources).  `decode` consumes
one byte and returns the new state and the updated codepoint
accumulator; state 0 accepts, state 1 rejects, the other states await
continuation bytes, with the first-continuation restrictions that rule
out overlong encodings, surrogates and codepoints above U+10FFFF. -/
def decode (state codep byte : Nat) : Nat × Nat :=
  let newCodep :=
    if state ≠ 0 then byte % 64 + codep * 64
    else if byte < 0x80 then byte
    else if byte < 0xE0 then byte % 32
    else if byte < 0xF0 then byte % 16
    else byte % 8
  let newState :=
    match state with
    | 0 =>
      if byte ≤ 0x7F then 0
      else if 0xC2 ≤ byte ∧ byte ≤ 0xDF then 2
      else if byte = 0xE0 then 4
      else if 0xE1 ≤ byte ∧ byte ≤ 0xEC then 3
      else if byte = 0xED then 5
      else if 0xEE ≤ byte ∧ byte ≤ 0xEF then 3
      else if byte = 0xF0 then 6
      else if 0xF1 ≤ byte ∧ byte ≤ 0xF3 then 7
      else if byte = 0xF4 then 8
      else 1
    | 2 => if 0x80 ≤ byte ∧ byte ≤ 0xBF then 0 else 1
    | 3 => if 0x80 ≤ byte ∧ byte ≤ 0xBF then 2 else 1
    | 4 => if 0xA0 ≤ byte ∧ byte ≤ 0xBF then 2 else 1
    | 5 => if 0x80 ≤ byte ∧ byte ≤ 0x9F then 2 else 1
    | 6 => if 0x90 ≤ byte ∧ byte ≤ 0xBF then 3 else 1
    | 7 => if 0x80 ≤ byte ∧ byte ≤ 0xBF then 3 else 1
    | 8 => if 0x80 ≤ byte ∧ byte ≤ 0x8F then 3 else 1
    | _ => 1
  (newState, newCodep)

/-- The predicate `canStartSymName`: legal first characters of a sym-file symbol
name, `[A-Za-z_]` (byte values; the comparisons in the source are on
ASCII chars). -/
def canStartSymName (c : Nat) : Bool :=
  (0x41 ≤ c && c ≤ 0x5A) || (0x61 ≤ c && c ≤ 0x7A) || c == 0x5F

/-- The predicate `isLegalForSymName`: characters legal anywhere in a sym-file
symbol name: `[A-Za-z0-9_@#$.]`. -/
def isLegalForSymName (c : Nat) : Bool :=
  (0x41 ≤ c && c ≤ 0x5A) || (0x61 ≤ c && c ≤ 0x7A) || (0x30 ≤ c && c ≤ 0x39) ||
  c == 0x5F || c == 0x40 || c == 0x23 || c == 0x24 || c == 0x2E

/-- The recovery loop of `printSymName`: skip continuation bytes
(`(*ptr & 0xC0) == 0x80`); a NUL byte (end of string) does not qualify. -/
def skipContinuation : List Nat → List Nat
  | [] => []
  | b :: rest => if b &&& 0xC0 == 0x80 then skipContinuation rest else b :: rest

/-- The codepoint-decoding do-while loop inside `printSymName`: feed
bytes to `decode` until it accepts or rejects; on reject substitute
U+FFFD and skip continuation bytes, leaving the rejecting byte itself
unconsumed.  Reading past the end of the list models reading the C
string's NUL terminator. -/
def escapeLoop : Nat → Nat → List Nat → Nat × List Nat
  | state, codep, [] =>
    let (st, cp) := decode state codep 0
    (if st = 0 then cp else 0xFFFD, [])
  | state, codep, b :: rest =>
    let (st, cp) := decode state codep b
    if st = 1 then (0xFFFD, skipContinuation (b :: rest))
    else if st = 0 then (cp, rest)
    else escapeLoop st cp rest

/-- One lowercase hexadecimal digit. -/
def hexDigit (n : Nat) : Char :=
  if n < 10 then Char.ofNat (48 + n) else Char.ofNat (87 + n)

/-- The number `n` in lowercase hexadecimal, zero-padded to `width` digits. -/
def hexPad (n width : Nat) : List Char :=
  (List.range width).reverse.map (fun i => hexDigit (n / 16 ^ i % 16))

/-- The Unicode escape `printSymName` prints for an illegal character:
`\uXXXX` for codepoints up to 0xFFFF, `\UXXXXXXXX` above. -/
def symEscape (codepoint : Nat) : List Char :=
  if codepoint ≤ 0xFFFF then '\\' :: 'u' :: hexPad codepoint 4
  else '\\' :: 'U' :: hexPad codepoint 8

/-- The outer loop of `printSymName`, with explicit fuel counting its
iterations: a legal character is printed as-is and consumes one byte;
an illegal character is decoded and printed as an escape, but on a
reject the offending byte is left unconsumed, so an iteration may make
no progress.  `none` means the loop did not finish within the given
number of iterations. -/
def printSymNameF : Nat → List Nat → Option (List Char)
  | _, [] => some []
  | 0, _ :: _ => none
  | fuel + 1, b :: rest =>
    if isLegalForSymName b then
      (printSymNameF fuel rest).map (fun s => Char.ofNat b :: s)
    else
      let (cp, rest') := escapeLoop 0 0 (b :: rest)
      (printSymNameF fuel rest').map (fun s => symEscape cp ++ s)

/-- C4 (code bug): the symbol name `A` followed by the invalid byte
0xC0 passes the `canStartSymName` filter of `writeSymBank`, yet
`printSymName` never terminates on it: byte 0xC0 is rejected by the
UTF-8 decoder at the start of a sequence, is not a continuation byte,
so the recovery path never consumes it and the loop repeats forever
(emitting a U+FFFD escape each time) — no fuel suffices. -/
theorem printSymName_diverges_on_invalid_byte :
    canStartSymName 0x41 = true ∧ ∀ fuel, printSymNameF fuel [0x41, 0xC0] = none := by
  refine ⟨by decide, ?_⟩
  have hC0 : ∀ fuel, printSymNameF fuel [0xC0] = none := by
    intro fuel
    induction fuel with
    | zero => rfl
    | succ n ih =>
      show printSymNameF (n + 1) [0xC0] = none
      rw [printSymNameF]
      rw [if_neg (by decide)]
      have hesc : escapeLoop 0 0 [0xC0] = (0xFFFD, [0xC0]) := by decide
      rw [hesc]
      simp [ih]
  intro fuel
  cases fuel with
  | zero => rfl
  | succ n =>
    show printSymNameF (n + 1) [0x41, 0xC0] = none
    rw [printSymNameF]
    rw [if_pos (by decide)]
    simp [hC0 n]

/-- The errno value `ENOENT`, which `fstk_FindFile` sets on failure. -/
def ENOENT : Nat := 2

/-- The function `fstk_FindFile`: the loop tries, in order, iteration `i = 0` with
the empty prefix (the path as given, resolving against the current
directory) and iterations `i = 1 .. NextIncPath` with each configured
include path prepended; the first candidate accepted by `isPathValid`
(abstracted as the predicate `valid`: `stat` succeeds and the file is
not a directory) is returned; if none is, `errno` is set to `ENOENT`
and the search fails. -/
def fstk_FindFile (includePaths : List String) (valid : String → Bool)
    (path : String) : Except Nat String :=
  match (path :: includePaths.map (fun incPath => incPath ++ path)).find? valid with
  | some fullPath => .ok fullPath
  | none => .error ENOENT

/-- The include-path search as the C2 spec sentence words it: the
current directory is used if the path starts with `./`, otherwise each
configured include path is tried in order. -/
def fstk_FindFileClaim (includePaths : List String) (valid : String → Bool)
    (path : String) : Except Nat String :=
  if path.startsWith "./" then
    if valid path then .ok path else .error ENOENT
  else
    match (includePaths.map (fun incPath => incPath ++ path)).find? valid with
    | some fullPath => .ok fullPath
    | none => .error ENOENT

/-- C2 counterexample: with one include path `inc/` and a file `f`
that exists only in the current directory, the source finds `f` (the
bare path is always tried first, independent of a `./` prefix), while
the claim's search, seeing no `./` prefix, consults only the include
paths and fails. -/
theorem fstk_FindFile_ne_claim :
    fstk_FindFile ["inc/"] (fun s => s == "f") "f" = .ok "f"
    ∧ fstk_FindFileClaim ["inc/"] (fun s => s == "f") "f" = .error ENOENT :=
  ⟨rfl, rfl⟩

theorem find?_first_index {α : Type} (f : α → Bool) (d : α) :
    ∀ (l : List α) (p : α), l.find? f = some p →
      f p = true ∧ ∃ i, i < l.length ∧ l.getD i d = p ∧
        ∀ j < i, f (l.getD j d) = false := by
  intro l
  induction l with
  | nil => intro p h; cases h
  | cons x xs ih =>
    intro p h
    by_cases hx : f x
    · rw [List.find?_cons_of_pos _ hx] at h
      cases h
      exact ⟨hx, 0, by simp, rfl, by omega⟩
    · rw [List.find?_cons_of_neg _ hx] at h
      obtain ⟨hf, i, hi, hg, hbefore⟩ := ih p h
      refine ⟨hf, i + 1, by simpa using hi, by simpa using hg, ?_⟩
      intro j hj
      cases j with
      | zero => simpa using hx
      | succ j => simpa using hbefore j (by omega)

/-- C2 amended: the search tries the bare path first (the current
directory, whether or not the path starts with `./`), then each
configured include path in the order added; a success returns the
first existing non-directory candidate, and if no candidate exists the
search fails with `errno = ENOENT`. -/
theorem fstk_FindFile_search_order (includePaths : List String) (valid : String → Bool)
    (path : String) :
    (∀ fullPath, fstk_FindFile includePaths valid path = .ok fullPath →
      valid fullPath = true ∧
      ∃ i, i < (path :: includePaths.map (fun q => q ++ path)).length ∧
        (path :: includePaths.map (fun q => q ++ path)).getD i "" = fullPath ∧
        ∀ j < i, valid ((path :: includePaths.map (fun q => q ++ path)).getD j "") = false)
    ∧ ((∀ c ∈ path :: includePaths.map (fun q => q ++ path), valid c = false) →
      fstk_FindFile includePaths valid path = .error ENOENT) := by
  constructor
  · intro fullPath h
    unfold fstk_FindFile at h
    cases hf : (path :: includePaths.map (fun q => q ++ path)).find? valid with
    | none => rw [hf] at h; cases h
    | some p =>
      rw [hf] at h
      cases h
      exact find?_first_index valid "" _ _ hf
  · intro hall
    unfold fstk_FindFile
    rw [List.find?_eq_none.2 (fun c hc => by simp [hall c hc])]

/-- Witness for C2 amended: a file present only under the include path
is found there, and an absent file fails the search with `ENOENT`. -/
theorem fstk_FindFile_search_order_witness :
    ((fun s : String => s == "inc/f") "inc/f" = true)
    ∧ fstk_FindFile [] (fun _ => false) "f" = .error ENOENT :=
  ⟨((fstk_FindFile_search_order ["inc/"] (fun s => s == "inc/f") "f").1 "inc/f" rfl).1,
   (fstk_FindFile_search_order [] (fun _ => false) "f").2 (by simp)⟩

/-- The `nCurrentStatus` values (`STAT_is*`). -/
inductive FstkStatus where
  | isInclude
  | isMacro
  | isMacroArg
  | isReptBlock
deriving DecidableEq, Repr

/-- A saved lexer context (`struct sContext` as filled by
`pushcontext`): the line, the status, and the status-dependent
snapshot of the macro/REPT globals (handles stand in for the C
pointers).  Fields the `switch` leaves untouched are zero. -/
structure FstkContext where
  nLine : Int
  nStatus : FstkStatus
  macroArgs : Nat
  currentMacro : Nat
  reptBlock : Nat
  reptBlockSize : Nat
  reptBlockCount : Nat
  reptBodyFirstLine : Int
  reptBodyLastLine : Int
  uniqueID : Nat
deriving DecidableEq, Repr

/-- The module state of the file-stack routines: the context list
(appended at the tail, as `pushcontext` walks to the end of the linked
list), its depth counter, the recursion limit, and the current
macro/REPT globals. -/
structure FstkState where
  fileStack : List FstkContext
  nFileStackDepth : Nat
  nMaxRecursionDepth : Nat
  status : FstkStatus
  lexerLine : Int
  macroArgs : Nat
  currentMacro : Nat
  reptBlock : Nat
  reptBlockSize : Nat
  reptBlockCount : Nat
  reptBodyFirstLine : Int
  reptBodyLastLine : Int
  macroCount : Nat
  uniqueID : Nat
deriving DecidableEq, Repr

/-- The context `pushcontext` saves, per the `switch` on the status. -/
def mkContext (st : FstkState) : FstkContext :=
  let base : FstkContext :=
    { nLine := st.lexerLine
      nStatus := st.status
      macroArgs := 0
      currentMacro := 0
      reptBlock := 0
      reptBlockSize := 0
      reptBlockCount := 0
      reptBodyFirstLine := 0
      reptBodyLastLine := 0
      uniqueID := st.uniqueID }
  match st.status with
  | .isMacroArg | .isMacro =>
    { base with
      macroArgs := st.macroArgs
      currentMacro := st.currentMacro }
  | .isInclude => base
  | .isReptBlock =>
    { base with
      macroArgs := st.macroArgs
      reptBlock := st.reptBlock
      reptBlockSize := st.reptBlockSize
      reptBlockCount := st.reptBlockCount
      reptBodyFirstLine := st.reptBodyFirstLine
      reptBodyLastLine := st.reptBodyLastLine }

/-- The function `pushcontext`: increment the depth and fail fatally if it exceeds
the recursion limit, otherwise append the saved context at the tail of
the stack. -/
def pushcontext (st : FstkState) : Except String FstkState :=
  if st.nFileStackDepth + 1 > st.nMaxRecursionDepth then
    .error "Recursion limit exceeded"
  else
    .ok { st with
          nFileStackDepth := st.nFileStackDepth + 1
          fileStack := st.fileStack ++ [mkContext st] }

/-- C9: pushing a context frame is fatal, and pushes nothing, when the
resulting depth would exceed the recursion limit; otherwise the depth
and the stack grow by exactly one. -/
theorem pushcontext_depth (st : FstkState) :
    (st.nMaxRecursionDepth < st.nFileStackDepth + 1 →
      pushcontext st = .error "Recursion limit exceeded")
    ∧ (∀ st2, pushcontext st = .ok st2 →
      st2.nFileStackDepth = st.nFileStackDepth + 1
      ∧ st2.fileStack.length = st.fileStack.length + 1
      ∧ st.nFileStackDepth + 1 ≤ st.nMaxRecursionDepth) := by
  constructor
  · intro h
    unfold pushcontext
    rw [if_pos (by omega)]
  · intro st2 h
    unfold pushcontext at h
    by_cases hd : st.nFileStackDepth + 1 > st.nMaxRecursionDepth
    · rw [if_pos hd] at h
      cases h
    · rw [if_neg hd] at h
      cases h
      refine ⟨rfl, ?_, by omega⟩
      simp

/-- Witness for C9: at depth 0 with limit 1 a push succeeds and yields
depth 1; at depth 1 with limit 1 a push is fatal. -/
theorem pushcontext_depth_witness :
    (pushcontext ⟨[], 1, 1, .isInclude, 0, 0, 0, 0, 0, 0, 0, 0, 0, 0⟩
      = .error "Recursion limit exceeded")
    ∧ ∀ st2, pushcontext ⟨[], 0, 1, .isInclude, 0, 0, 0, 0, 0, 0, 0, 0, 0, 0⟩
      = .ok st2 → st2.nFileStackDepth = 1 :=
  ⟨(pushcontext_depth _).1 (by decide),
   fun st2 h => by rw [(pushcontext_depth _).2 st2 h |>.1]⟩

/-- The function `fstk_RunRept`: when the iteration count is nonzero, push a
context, take a fresh unique id (`macro_SetUniqueID(nMacroCount++)`)
and install the REPT block as the current one; when the count is zero,
do nothing at all.  The captured body and its size (`tzNewMacro`,
`ulNewMacroSize`) are passed as arguments. -/
def fstk_RunRept (count : Nat) (nReptLineNo : Int) (newMacro : Nat)
    (newMacroSize : Nat) (st : FstkState) : Except String FstkState :=
  if count ≠ 0 then
    match pushcontext st with
    | .error e => .error e
    | .ok st1 =>
      .ok { st1 with
            uniqueID := st1.macroCount
            macroCount := st1.macroCount + 1
            reptBlockCount := count
            status := .isReptBlock
            reptBlockSize := newMacroSize
            reptBlock := newMacro
            reptBodyFirstLine := nReptLineNo + 1 }
  else
    .ok st

/-- C10: `REPT` with an iteration count of zero pushes no context
frame and leaves the whole file-stack state — depth, status, REPT
block bookkeeping — exactly unchanged. -/
theorem fstk_RunRept_zero (nReptLineNo : Int) (newMacro newMacroSize : Nat)
    (st : FstkState) :
    fstk_RunRept 0 nReptLineNo newMacro newMacroSize st = .ok st := by
  unfold fstk_RunRept
  rw [if_neg (by omega)]

/-- The lexer modes involved in conditional assembly. -/
inductive LexerMode where
  | normal
  | skipToElif
  | skipToEndc
deriving DecidableEq, Repr

/-- Modelled from the spec: one level of the per-depth IF state kept
by the lexer (`lexer.cpp` is not among the sources): whether a branch
of this level has run, and whether its ELSE block was reached. -/
structure IfLevel where
  ranIfBlock : Bool
  reachedElseBlock : Bool
deriving DecidableEq, Repr

instance : Inhabited IfLevel := ⟨⟨false, false⟩⟩

/-- Modelled from the spec: the lexer state the IF/ELIF/ELSE/ENDC
grammar actions manipulate — the stack of IF levels (top at the head;
its length is the IF depth) and the current mode. -/
structure CondState where
  ifStack : List IfLevel
  mode : LexerMode
deriving DecidableEq, Repr

/-- Modelled from the spec: `lexer_IncIFDepth` opens a fresh IF level. -/
def lexer_IncIFDepth (st : CondState) : CondState :=
  { st with ifStack := ⟨false, false⟩ :: st.ifStack }

/-- Modelled from the spec: `lexer_GetIFDepth`. -/
def lexer_GetIFDepth (st : CondState) : Nat := st.ifStack.length

/-- Modelled from the spec: `lexer_RanIFBlock` reads the top level. -/
def lexer_RanIFBlock (st : CondState) : Bool :=
  (st.ifStack.headD default).ranIfBlock

/-- Modelled from the spec: `lexer_ReachedELSEBlock` reads the top level. -/
def lexer_ReachedELSEBlock (st : CondState) : Bool :=
  (st.ifStack.headD default).reachedElseBlock

/-- Modelled from the spec: `lexer_RunIFBlock` marks the top level as
having run a branch; the lexer proceeds in normal mode (`PICK → RUN`). -/
def lexer_RunIFBlock (st : CondState) : CondState :=
  match st.ifStack with
  | [] => { st with mode := .normal }
  | lvl :: rest => { ifStack := { lvl with ranIfBlock := true } :: rest, mode := .normal }

/-- Modelled from the spec: `lexer_ReachELSEBlock` marks the top level. -/
def lexer_ReachELSEBlock (st : CondState) : CondState :=
  match st.ifStack with
  | [] => st
  | lvl :: rest => { st with ifStack := { lvl with reachedElseBlock := true } :: rest }

/-- Modelled from the spec: `lexer_SetMode`. -/
def lexer_SetMode (m : LexerMode) (st : CondState) : CondState :=
  { st with mode := m }

/-- Modelled from the spec: `lexer_DecIFDepth` pops one IF level and
is fatal at depth 0. -/
def lexer_DecIFDepth (st : CondState) : Except String CondState :=
  match st.ifStack with
  | [] => .error "Found ENDC outside an IF construct"
  | _ :: rest => .ok { st with ifStack := rest }

/-- The `if` grammar action: open a level, then run the block when the
condition is nonzero, else skip to the next ELIF. -/
def doIf (c : Int) (st : CondState) : Except String CondState :=
  let st1 := lexer_IncIFDepth st
  if c ≠ 0 then .ok (lexer_RunIFBlock st1)
  else .ok (lexer_SetMode .skipToElif st1)

/-- The `elif` grammar action. -/
def doElif (c : Int) (st : CondState) : Except String CondState :=
  if lexer_GetIFDepth st = 0 then
    .error "Found ELIF outside an IF construct"
  else if lexer_RanIFBlock st then
    if lexer_ReachedELSEBlock st then
      .error "Found ELIF after an ELSE block"
    else
      .ok (lexer_SetMode .skipToEndc st)
  else if c ≠ 0 then
    .ok (lexer_RunIFBlock st)
  else
    .ok (lexer_SetMode .skipToElif st)

/-- The `else` grammar action. -/
def doElse (st : CondState) : Except String CondState :=
  if lexer_GetIFDepth st = 0 then
    .error "Found ELSE outside an IF construct"
  else if lexer_RanIFBlock st then
    if lexer_ReachedELSEBlock st then
      .error "Found ELSE after an ELSE block"
    else
      .ok (lexer_SetMode .skipToEndc st)
  else
    .ok (lexer_ReachELSEBlock (lexer_RunIFBlock st))

/-- The `endc` grammar action. -/
def doEndc (st : CondState) : Except String CondState :=
  lexer_DecIFDepth st

/-- C6: the per-depth conditional-assembly transitions.  `IF c` opens
a level and enters RUN (normal mode, branch marked ran) when `c ≠ 0`,
else skips to ELIF; `ELIF` after a taken branch skips to ENDC, is
fatal after an ELSE block, and otherwise behaves like `IF` on the
current level; `ELSE` after a taken branch skips to ENDC, is fatal
after a previous ELSE, and otherwise runs marking the ELSE block
reached; `ELIF`/`ELSE` outside any IF construct are fatal; `ENDC` pops
one level. -/
theorem cond_assembly_transitions (c : Int) (st : CondState) :
    (doIf c st =
      if c = 0 then .ok ⟨⟨false, false⟩ :: st.ifStack, .skipToElif⟩
      else .ok ⟨⟨true, false⟩ :: st.ifStack, .normal⟩)
    ∧ (doElif c st =
      match st.ifStack with
      | [] => .error "Found ELIF outside an IF construct"
      | lvl :: rest =>
        if lvl.ranIfBlock then
          if lvl.reachedElseBlock then .error "Found ELIF after an ELSE block"
          else .ok ⟨lvl :: rest, .skipToEndc⟩
        else if c = 0 then .ok ⟨⟨false, lvl.reachedElseBlock⟩ :: rest, .skipToElif⟩
        else .ok ⟨⟨true, lvl.reachedElseBlock⟩ :: rest, .normal⟩)
    ∧ (doElse st =
      match st.ifStack with
      | [] => .error "Found ELSE outside an IF construct"
      | lvl :: rest =>
        if lvl.ranIfBlock then
          if lvl.reachedElseBlock then .error "Found ELSE after an ELSE block"
          else .ok ⟨lvl :: rest, .skipToEndc⟩
        else .ok ⟨⟨true, true⟩ :: rest, .normal⟩)
    ∧ (doEndc st =
      match st.ifStack with
      | [] => .error "Found ENDC outside an IF construct"
      | _ :: rest => .ok ⟨rest, st.mode⟩) := by
  refine ⟨?_, ?_, ?_, ?_⟩
  · unfold doIf lexer_IncIFDepth lexer_RunIFBlock lexer_SetMode
    by_cases hc : c = 0 <;> simp [hc]
  · unfold doElif lexer_GetIFDepth lexer_RanIFBlock lexer_ReachedELSEBlock
      lexer_RunIFBlock lexer_SetMode
    cases hst : st.ifStack with
    | nil => simp [hst]
    | cons lvl rest =>
      by_cases hran : lvl.ranIfBlock
      · by_cases helse : lvl.reachedElseBlock
        · simp [hst, hran, helse]
        · simp [hst, hran, helse]
      · by_cases hc : c = 0
        · simp [hst, hran, hc]
          cases lvl
          simp_all
        · simp [hst, hran, hc]
  · unfold doElse lexer_GetIFDepth lexer_RanIFBlock lexer_ReachedELSEBlock
      lexer_RunIFBlock lexer_ReachELSEBlock lexer_SetMode
    cases hst : st.ifStack with
    | nil => simp [hst]
    | cons lvl rest =>
      by_cases hran : lvl.ranIfBlock
      · by_cases helse : lvl.reachedElseBlock
        · simp [hst, hran, helse]
        · simp [hst, hran, helse]
      · simp [hst, hran]
  · unfold doEndc lexer_DecIFDepth
    cases hst : st.ifStack with
    | nil => simp [hst]
    | cons lvl rest =>
      cases st
      simp_all

/-- An expression operand as the grammar actions see it: whether its
value is known, and the known value (`int32_t`). -/
structure Expression where
  isKnown : Bool
  val : Int
deriving DecidableEq, Repr

/-- A byte emitted into the current section: either a literal byte or
a 16-bit little-endian patch for a not-yet-known expression. -/
inductive Emitted where
  | byte (b : Nat)
  | patchWord (e : Expression)
deriving DecidableEq, Repr

/-- Modelled from the spec: `sect_RelWord` (the section builder is not
among the sources) emits the value as two little-endian bytes when the
expression is known, and records a 16-bit patch otherwise (§4.5,
§4.7). -/
def sect_RelWord (e : Expression) : List Emitted :=
  if e.isKnown then
    [.byte ((e.val % 65536).toNat % 256), .byte ((e.val % 65536).toNat / 256)]
  else
    [.patchWord e]

/-- The `ld a, [n]` action (`z80_ld_a`, destination register A, memory
operand): with the load-optimization flag on, a known address ≥ $FF00
is rewritten to the LDH form `F0 nn`; otherwise the absolute form
`FA nn nn` is emitted. -/
def z80_ld_a_mem (optimizeLoads : Bool) (e : Expression) : List Emitted :=
  if optimizeLoads && e.isKnown && decide (0xFF00 ≤ e.val) then
    [.byte 0xF0, .byte (e.val % 256).toNat]
  else
    .byte 0xFA :: sect_RelWord e

/-- The `ld [n], a` action (`z80_ld_mem`): the same rewrite to the LDH
form `E0 nn`, otherwise the absolute form `EA nn nn`. -/
def z80_ld_mem_a (optimizeLoads : Bool) (e : Expression) : List Emitted :=
  if optimizeLoads && e.isKnown && decide (0xFF00 ≤ e.val) then
    [.byte 0xE0, .byte (e.val % 256).toNat]
  else
    .byte 0xEA :: sect_RelWord e

/-- C5: `ld a, [$FF80]` with the load-optimization flag on emits
`F0 80`, and without the flag `FA 80 FF`; in general either load
form is rewritten to its high-page (LDH) form exactly when the flag is
on, the operand is known, and its value is at least $FF00. -/
theorem z80_ld_opt_iff :
    z80_ld_a_mem true ⟨true, 0xFF80⟩ = [.byte 0xF0, .byte 0x80]
    ∧ z80_ld_a_mem false ⟨true, 0xFF80⟩ = [.byte 0xFA, .byte 0x80, .byte 0xFF]
    ∧ (∀ (optimizeLoads : Bool) (e : Expression),
      (z80_ld_a_mem optimizeLoads e).head? = some (.byte 0xF0) ↔
        (optimizeLoads = true ∧ e.isKnown = true ∧ 0xFF00 ≤ e.val))
    ∧ (∀ (optimizeLoads : Bool) (e : Expression),
      (z80_ld_mem_a optimizeLoads e).head? = some (.byte 0xE0) ↔
        (optimizeLoads = true ∧ e.isKnown = true ∧ 0xFF00 ≤ e.val)) := by
  refine ⟨by decide, by decide, ?_, ?_⟩
  · intro optimizeLoads e
    unfold z80_ld_a_mem
    by_cases hcond : optimizeLoads && e.isKnown && decide (0xFF00 ≤ e.val)
    · rw [if_pos hcond]
      simp only [Bool.and_eq_true, decide_eq_true_eq] at hcond
      simp [hcond.1.1, hcond.1.2, hcond.2]
    · rw [if_neg hcond]
      simp only [Bool.and_eq_true, decide_eq_true_eq, not_and] at hcond
      simp only [List.head?_cons, Option.some.injEq]
      constructor
      · intro h
        cases h
      · intro ⟨h1, h2, h3⟩
        exact absurd h3 (hcond ⟨h1, h2⟩)
  · intro optimizeLoads e
    unfold z80_ld_mem_a
    by_cases hcond : optimizeLoads && e.isKnown && decide (0xFF00 ≤ e.val)
    · rw [if_pos hcond]
      simp only [Bool.and_eq_true, decide_eq_true_eq] at hcond
      simp [hcond.1.1, hcond.1.2, hcond.2]
    · rw [if_neg hcond]
      simp only [Bool.and_eq_true, decide_eq_true_eq, not_and] at hcond
      simp only [List.head?_cons, Option.some.injEq]
      constructor
      · intro h
        cases h
      · intro ⟨h1, h2, h3⟩
        exact absurd h3 (hcond ⟨h1, h2⟩)

/-- Result of the first `strsubUTF8` loop (advance to the starting
position): the bytes not yet consumed, the decoder state and codepoint
accumulator, the reached position, and the invalid-byte errors. -/
structure StrsubAdvance where
  remaining : List Nat
  dstate : Nat
  codep : Nat
  curPos : Nat
  errors : List String
deriving DecidableEq, Repr

/-- The advance loop of `strsubUTF8`: while bytes remain and
`curPos < pos`, decode one byte; a completed codepoint advances
`curPos`, a rejected byte reports an error, resets the decoder and
also advances `curPos` (the C `case 1` falls through to `case 0`). -/
def strsubAdvance (pos : Nat) : List Nat → Nat → Nat → Nat → StrsubAdvance
  | [], dstate, codep, curPos => ⟨[], dstate, codep, curPos, []⟩
  | b :: rest, dstate, codep, curPos =>
    if curPos < pos then
      let (st, cp) := decode dstate codep b
      if st = 1 then
        let r := strsubAdvance pos rest 0 cp (curPos + 1)
        { r with errors := "STRSUB: Invalid UTF-8 byte" :: r.errors }
      else if st = 0 then
        strsubAdvance pos rest st cp (curPos + 1)
      else
        strsubAdvance pos rest st cp curPos
    else ⟨b :: rest, dstate, codep, curPos, []⟩

/-- Result of the second `strsubUTF8` loop (copy): the copied bytes,
the final decoder state, the number of copied codepoints, and the
invalid-byte errors. -/
structure StrsubCopy where
  dest : List Nat
  dstate : Nat
  codep : Nat
  curLen : Nat
  errors : List String
deriving DecidableEq, Repr

/-- The copy loop of `strsubUTF8`: while bytes remain, the destination
buffer has room (`destIndex < destLen - 1`) and fewer than `len`
codepoints were copied, decode one byte and copy it; completed and
rejected codepoints count toward `curLen` as in the advance loop. -/
def strsubCopy (len destLen : Nat) : List Nat → Nat → Nat → Nat → Nat → StrsubCopy
  | [], dstate, codep, curLen, _ => ⟨[], dstate, codep, curLen, []⟩
  | b :: rest, dstate, codep, curLen, destIndex =>
    if destIndex < destLen - 1 ∧ curLen < len then
      let (st, cp) := decode dstate codep b
      if st = 1 then
        let r := strsubCopy len destLen rest 0 cp (curLen + 1) (destIndex + 1)
        { r with
          dest := b :: r.dest
          errors := "STRSUB: Invalid UTF-8 byte" :: r.errors }
      else if st = 0 then
        let r := strsubCopy len destLen rest st cp (curLen + 1) (destIndex + 1)
        { r with dest := b :: r.dest }
      else
        let r := strsubCopy len destLen rest st cp curLen (destIndex + 1)
        { r with dest := b :: r.dest }
    else ⟨[], dstate, codep, curLen, []⟩

/-- The function `strsubUTF8`, returning the copied bytes,
the emitted warnings and the emitted errors.  After the advance loop a
"Position is past the end" warning is emitted if the string ended
before `pos` was reached; after the copy loop a "Length too big"
warning is emitted if fewer than `len` codepoints could be copied, and
an "Incomplete UTF-8 character" error if a codepoint was cut short. -/
def strsubUTF8 (destLen : Nat) (src : List Nat) (pos len : Nat) :
    List Nat × List String × List String :=
  let a := strsubAdvance pos src 0 0 1
  let posWarnings :=
    if a.remaining.isEmpty ∧ a.curPos < pos then
      ["STRSUB: Position is past the end of the string"]
    else []
  let c := strsubCopy len destLen a.remaining a.dstate a.codep 0 0
  let lenWarnings := if c.curLen < len then ["STRSUB: Length too big"] else []
  let incomplete := if c.dstate ≠ 0 then ["STRSUB: Incomplete UTF-8 character"] else []
  (c.dest, posWarnings ++ lenWarnings, a.errors ++ c.errors ++ incomplete)

/-- The loop of `strlenUTF8`: count completed (or rejected) codepoints
and report the final decoder state. -/
def strlenUTF8Aux : List Nat → Nat → Nat → Nat × Nat × List String
  | [], dstate, _ => (0, dstate, [])
  | b :: rest, dstate, codep =>
    let (st, cp) := decode dstate codep b
    if st = 1 then
      let (n, fs, errs) := strlenUTF8Aux rest 0 cp
      (n + 1, fs, "STRLEN: Invalid UTF-8 byte" :: errs)
    else if st = 0 then
      let (n, fs, errs) := strlenUTF8Aux rest st cp
      (n + 1, fs, errs)
    else
      let (n, fs, errs) := strlenUTF8Aux rest st cp
      (n, fs, errs)

/-- The function `strlenUTF8`: the number of UTF-8 codepoints of the string, with
the errors emitted along the way (including the final incomplete-
codepoint check). -/
def strlenUTF8 (s : List Nat) : Nat × List String :=
  let (n, fs, errs) := strlenUTF8Aux s 0 0
  (n, errs ++ if fs ≠ 0 then ["STRLEN: Incomplete UTF-8 character"] else [])

/-- C7 counterexample: `STRSUB("a", 2, 1)` — position exactly one past
the end (p = L+1) with requested length 1.  The claim predicate
`n > 0 ∧ p > L+1` is false, so the claim calls it silent, but the
code emits the "Length too big" warning. -/
theorem strsub_warning_counterexample :
    ((strsubUTF8 256 [97] 2 1).2.1 ≠ []) ∧
      ¬(1 > 0 ∧ 2 > (strlenUTF8 [97]).1 + 1) := by
  constructor
  · decide
  · decide

theorem decode_ascii (cp : Nat) {b : Nat} (h : b ≤ 0x7F) : decode 0 cp b = (0, b) := by
  have hlt : b < 0x80 := by omega
  simp [decode, hlt, h]

theorem strsubAdvance_ascii :
    ∀ (l : List Nat) (pos curPos cp : Nat), (∀ b ∈ l, 1 ≤ b ∧ b ≤ 0x7F) →
    ∃ cp2, strsubAdvance pos l 0 cp curPos =
      ⟨l.drop (pos - curPos), 0, cp2, curPos + min (pos - curPos) l.length, []⟩ := by
  intro l
  induction l with
  | nil =>
    intro pos curPos cp _
    exact ⟨cp, by simp [strsubAdvance]⟩
  | cons b rest ih =>
    intro pos curPos cp hascii
    have hb := hascii b (List.mem_cons_self _ _)
    by_cases hlt : curPos < pos
    · obtain ⟨cp2, hrec⟩ := ih pos (curPos + 1) b
        (fun x hx => hascii x (List.mem_cons_of_mem _ hx))
      refine ⟨cp2, ?_⟩
      rw [strsubAdvance, if_pos hlt, decode_ascii cp hb.2]
      simp only [if_neg (by omega : ¬(0 : Nat) = 1), if_pos rfl]
      rw [hrec]
      have hdrop : (b :: rest).drop (pos - curPos) = rest.drop (pos - (curPos + 1)) := by
        have : pos - curPos = (pos - (curPos + 1)) + 1 := by omega
        rw [this, List.drop_succ_cons]
      have hmin : (curPos + 1) + min (pos - (curPos + 1)) rest.length
          = curPos + min (pos - curPos) (b :: rest).length := by
        simp only [List.length_cons]
        omega
      rw [hdrop, hmin]
      simp
    · refine ⟨cp, ?_⟩
      rw [strsubAdvance, if_neg hlt]
      have h0 : pos - curPos = 0 := by omega
      simp [h0]

theorem strsubCopy_ascii :
    ∀ (l : List Nat) (len destLen curLen destIndex cp : Nat),
    (∀ b ∈ l, 1 ≤ b ∧ b ≤ 0x7F) → destIndex + l.length < destLen →
    ∃ d cp2, strsubCopy len destLen l 0 cp curLen destIndex =
      ⟨d, 0, cp2, curLen + min (len - curLen) l.length, []⟩ := by
  intro l
  induction l with
  | nil =>
    intro len destLen curLen destIndex cp _ _
    exact ⟨[], cp, by simp [strsubCopy]⟩
  | cons b rest ih =>
    intro len destLen curLen destIndex cp hascii hroom
    have hb := hascii b (List.mem_cons_self _ _)
    by_cases hcur : curLen < len
    · have hcond : destIndex < destLen - 1 ∧ curLen < len := by
        constructor
        · simp only [List.length_cons] at hroom
          omega
        · exact hcur
      obtain ⟨d, cp2, hrec⟩ := ih len destLen (curLen + 1) (destIndex + 1) b
        (fun x hx => hascii x (List.mem_cons_of_mem _ hx))
        (by simp only [List.length_cons] at hroom; omega)
      refine ⟨b :: d, cp2, ?_⟩
      rw [strsubCopy, if_pos hcond, decode_ascii cp hb.2]
      simp only [if_neg (by omega : ¬(0 : Nat) = 1), if_pos rfl]
      rw [hrec]
      have hmin : (curLen + 1) + min (len - (curLen + 1)) rest.length
          = curLen + min (len - curLen) (b :: rest).length := by
        simp only [List.length_cons]
        omega
      simp [hmin]
    · refine ⟨[], cp, ?_⟩
      rw [strsubCopy, if_neg (fun hc => hcur hc.2)]
      have h0 : len - curLen = 0 := by omega
      simp [h0]

theorem strlenUTF8_ascii (l : List Nat) (h : ∀ b ∈ l, 1 ≤ b ∧ b ≤ 0x7F) :
    strlenUTF8 l = (l.length, []) := by
  have haux : ∀ (l : List Nat) (cp : Nat), (∀ b ∈ l, 1 ≤ b ∧ b ≤ 0x7F) →
      strlenUTF8Aux l 0 cp = (l.length, 0, []) := by
    intro l
    induction l with
    | nil => intro cp _; rfl
    | cons b rest ih =>
      intro cp hascii
      have hb := hascii b (List.mem_cons_self _ _)
      rw [strlenUTF8Aux, decode_ascii cp hb.2]
      simp only [if_neg (by omega : ¬(0 : Nat) = 1), if_pos rfl]
      rw [ih b (fun x hx => hascii x (List.mem_cons_of_mem _ hx))]
      simp
  unfold strlenUTF8
  rw [haux l 0 h]
  simp

/-- C7 amended: for a `STRSUB` call on an ASCII string of length `L`
that fits the destination buffer, with position `p ≥ 1` (as ensured by
`adjustNegativePos`) and requested length `n`, a warning is emitted
iff `p + n > L + 1`: a position beyond `L + 1` warns even for `n = 0`,
a nonzero length that runs past the end warns even when `p ≤ L + 1`,
and in particular a zero-length slice at the exact end-of-string
position `p = L + 1` is silent. -/
theorem strsubUTF8_warning_iff (src : List Nat) (pos len destLen : Nat)
    (hascii : ∀ b ∈ src, 1 ≤ b ∧ b ≤ 0x7F) (hpos : 1 ≤ pos)
    (hdest : src.length < destLen) :
    ((strsubUTF8 destLen src pos len).2.1 ≠ [] ↔
      pos + len > (strlenUTF8 src).1 + 1) := by
  obtain ⟨cp2, ha⟩ := strsubAdvance_ascii src pos 1 0 hascii
  have hasciiDrop : ∀ b ∈ src.drop (pos - 1), 1 ≤ b ∧ b ≤ 0x7F :=
    fun b hb => hascii b (List.mem_of_mem_drop hb)
  obtain ⟨d, cp3, hc⟩ := strsubCopy_ascii (src.drop (pos - 1)) len destLen 0 0 cp2
    hasciiDrop (by rw [List.length_drop]; omega)
  rw [strlenUTF8_ascii src hascii]
  unfold strsubUTF8
  rw [ha]
  simp only
  rw [hc]
  simp only [List.isEmpty_iff, List.drop_eq_nil_iff, List.length_drop]
  by_cases hA : src.length ≤ pos - 1 ∧ 1 + min (pos - 1) src.length < pos
  · rw [if_pos hA]
    simp only [List.cons_append, ne_eq, List.cons_ne_nil, not_false_iff, true_iff]
    omega
  · rw [if_neg hA]
    by_cases hB : 0 + min (len - 0) (src.length - (pos - 1)) < len
    · rw [if_pos hB]
      simp only [List.nil_append, ne_eq, List.cons_ne_nil, not_false_iff, true_iff]
      omega
    · rw [if_neg hB]
      simp only [List.nil_append]
      constructor
      · intro hcontra
        exact absurd rfl hcontra
      · intro hgt
        exfalso
        simp only [not_and, Nat.not_lt] at hA hB
        omega

/-- Witness for C7 amended: `STRSUB("a", 1, 2)` requests two
characters from a one-character string, so `p + n = 3 > L + 1 = 2`
and a warning is emitted. -/
theorem strsubUTF8_warning_iff_witness :
    (strsubUTF8 256 [97] 1 2).2.1 ≠ [] :=
  (strsubUTF8_warning_iff [97] 1 2 256 (by decide) (by decide) (by decide)).2
    (by decide)
